import Mathlib

/-!
Shallow embedding of the Conway's-Game-of-Life variant in `src/main.ts`,
together with proofs settling the specification claims.

JavaScript semantics that matter here and how they are modelled:

* `type CellPool = boolean[]` becomes `List Bool`.
* An array read `cells[i]` at an index outside `[0, length)` yields
  `undefined`; we model an array read as `Option Bool`, with `none` for
  `undefined`.
* `Number(undefined)` is `NaN`, and any arithmetic on `NaN` stays `NaN`;
  the only numbers arising in `findNeighbors` are naturals and `NaN`, so a
  running count is modelled as `Option Nat` with `none` for `NaN`.
* `NaN < k`, `NaN > k` and `NaN === k` are all `false` in JavaScript.
* Writing `arr[i] = v` with `i < length` updates in place (`List.set`);
  the pixel buffer is a fixed-size typed array (`Uint8ClampedArray`), for
  which an out-of-range write is silently dropped, which `List.set`'s
  out-of-range behaviour also matches.
* `buffer.slice()` returns a copy; under value semantics a copy is the
  value itself.

The grid side (`CELLS_PER_ROW`, the source fixes it to `100`) is passed
as an explicit `side` parameter so that claims quantifying over grid
sizes can be stated; the source constant is kept as `CELLS_PER_ROW`.
-/

namespace Conway

/-- A 2D grid of cells, row-major (`type CellPool = boolean[]`). -/
abbrev CellPool := List Bool

/-- `CELL_COLORS = [255, 0]`: entry `Number(false) = 0` is the dead color 255
(white), entry `Number(true) = 1` is the alive color 0 (black). -/
def CELL_COLORS : List ℕ := [255, 0]

/-- `CELLS_PER_ROW = 100` from the source. -/
def CELLS_PER_ROW : ℕ := 100

/-- `BUFFER_SIZE = CELLS_PER_ROW * CELLS_PER_ROW` from the source. -/
def BUFFER_SIZE : ℕ := CELLS_PER_ROW * CELLS_PER_ROW

/-- A JavaScript array read `cells[i]` at a possibly negative or
out-of-range index: `none` models `undefined`. -/
def jsGet (cells : CellPool) (i : ℤ) : Option Bool :=
  if 0 ≤ i then cells[i.toNat]? else none

/-- `Number(x)` applied to a boolean-or-undefined value:
`Number(true) = 1`, `Number(false) = 0`, `Number(undefined) = NaN` (`none`). -/
def jsNum : Option Bool → Option ℕ
  | some b => some (if b then 1 else 0)
  | none => none

/-- JavaScript `+` on the values arising in the neighbor count:
a natural number or `NaN`; any sum involving `NaN` is `NaN`. -/
def jsAdd : Option ℕ → Option ℕ → Option ℕ
  | some a, some b => some (a + b)
  | _, _ => none

/-- JavaScript `<` against a numeric literal; `false` when the left side is `NaN`. -/
def jsLt (a : Option ℕ) (k : ℕ) : Bool :=
  match a with
  | some n => decide (n < k)
  | none => false

/-- JavaScript `>` against a numeric literal; `false` when the left side is `NaN`. -/
def jsGt (a : Option ℕ) (k : ℕ) : Bool :=
  match a with
  | some n => decide (k < n)
  | none => false

/-- JavaScript `===` against a numeric literal; `false` when the left side is `NaN`. -/
def jsEq (a : Option ℕ) (k : ℕ) : Bool :=
  match a with
  | some n => decide (n = k)
  | none => false

/-- `createBuffer(size)`: a buffer of `size` cells, all `false`. -/
def createBuffer (size : ℕ) : CellPool :=
  List.replicate size false

/-- `cloneBuffer(buffer) = buffer.slice()`: a copy, which under value
semantics is the buffer itself. -/
def cloneBuffer (buffer : CellPool) : CellPool :=
  buffer

/-- `diffBuffers(a, b) = a.map((cell, index) => cell !== b[index])`.
`b[index]` may be `undefined` when `b` is shorter than `a`; a boolean
`cell` is strictly unequal to `undefined`. -/
def diffBuffers (a b : CellPool) : CellPool :=
  a.enum.map (fun cell => decide (some cell.2 ≠ b[cell.1]?))

/-- `findNeighbors(cells, index)` (source lines 62-85): sums
`Number(cells[n])` over the eight arithmetic neighbor offsets; the result
is `NaN` (`none`) as soon as one offset falls outside the array. -/
def findNeighbors (side : ℕ) (cells : CellPool) (index : ℤ) : Option ℕ :=
  let t := index - side
  let b := index + side
  let l := index - 1
  let r := index + 1
  let tl := t - 1
  let tr := t + 1
  let bl := b - 1
  let br := b + 1
  let neighbors := [t, b, l, r, tl, tr, bl, br]
  neighbors.foldl (fun count neighbor => jsAdd count (jsNum (jsGet cells neighbor))) (some 0)

/-- The global `state : GameState` record, minus the wall-clock field
(`lastLoop`) which only feeds the telemetry text. `pixels` is the flat
RGBA byte array `state.pixels.data`. -/
structure GameState where
  isRunning : Bool
  isMousePressed : Bool
  bitsChanged : ℕ
  previous : CellPool
  current : CellPool
  next : CellPool
  changed : CellPool
  pixels : List ℕ
  deriving Repr, DecidableEq

/-- The body of the per-cell loop inside `tick` (source lines 97-108):
reads `current` and possibly assigns `next[i]`. -/
def tickBody (side : ℕ) (current : CellPool) (next : CellPool) (i : ℕ) : CellPool :=
  let neighbors := findNeighbors side current (i : ℤ)
  let alive := current.getD i false
  let next1 := if alive && (jsLt neighbors 2 || jsGt neighbors 3) then next.set i false else next
  if !alive && jsEq neighbors 3 then next1.set i true else next1

/-- The transition engine: the loop of `tick` over every index of
`current`, mutating `next` in place. -/
def advance (side : ℕ) (current next : CellPool) : CellPool :=
  (List.range current.length).foldl (tickBody side current) next

/-- `tick()` (source lines 87-111): snapshot `previous`, stop when not
running, otherwise run the transition engine and commit
`current = cloneBuffer(next)`. -/
def tick (side : ℕ) (s : GameState) : GameState :=
  let s1 := { s with previous := cloneBuffer s.current }
  if s1.isRunning then
    let nx := advance side s1.current s1.next
    { s1 with next := nx, current := cloneBuffer nx }
  else
    s1

/-- The body of the random button handler (source lines 187-191): each
cell of `current` is overwritten with an independent coin flip; `rnd i`
models the value of `Math.random() > 0.5` at loop iteration `i`. -/
def randomize (rnd : ℕ → Bool) (s : GameState) : GameState :=
  (List.range s.current.length).foldl
    (fun st i => { st with current := st.current.set i (rnd i) }) s

/-- The pixel value the render encoder writes for cell `i`:
`CELL_COLORS[Number(current[i])]` (source line 128). -/
def cellColor (current : CellPool) (i : ℕ) : ℕ :=
  CELL_COLORS.getD (if current.getD i false then 1 else 0) 0

/-- The body of the pixel-writing loop inside `render` (source lines
118-134): skip unchanged cells, otherwise write the RGBA group of cell `i`. -/
def pixBody (side : ℕ) (current mask : CellPool) (pixels : List ℕ) (i : ℕ) : List ℕ :=
  if mask.getD i false = false then pixels
  else
    let x := i % side
    let y := i / side
    let index := (y * side + x) * 4
    let color := cellColor current i
    ((((pixels.set index color).set (index + 1) color).set (index + 2) color).set (index + 3) 255)

/-- The render encoder contract `encode(current, mask, pixel_buffer)`:
the pixel-writing loop of `render` over every index of `current`, with
the change mask (`state.changed` in the source) passed explicitly. -/
def encode (side : ℕ) (current mask : CellPool) (pixels : List ℕ) : List ℕ :=
  (List.range current.length).foldl (pixBody side current mask) pixels

/-- The per-cell value of one transition step: what `next[i]` holds after
the loop body for index `i` ran, given its prior value `old`. The birth
assignment is the later of the two writes in the source, hence tested
first here; the two conditions are mutually exclusive anyway. -/
def stepVal (side : ℕ) (current : CellPool) (i : ℕ) (old : Bool) : Bool :=
  let neighbors := findNeighbors side current (i : ℤ)
  let alive := current.getD i false
  if !alive && jsEq neighbors 3 then true
  else if alive && (jsLt neighbors 2 || jsGt neighbors 3) then false
  else old

/-- The 2x2 still-life block with top-left cell at column `x`, row `y`:
membership test for linear index `i`. -/
def isBlock (side x y i : ℕ) : Bool :=
  decide (i = y * side + x ∨ i = y * side + x + 1 ∨
          i = y * side + x + side ∨ i = y * side + x + side + 1)

/-- A `side * side` buffer holding exactly the 2x2 block at `(x, y)`. -/
def blockBuffer (side x y : ℕ) : CellPool :=
  (List.range (side * side)).map (fun i => isBlock side x y i)

/-- A concrete idle state on a 3x3 grid, used as a witness input. -/
def idleState : GameState where
  isRunning := false
  isMousePressed := false
  bitsChanged := 0
  previous := createBuffer 9
  current := [true, false, true, false, true, false, true, false, true]
  next := [false, true, false, true, false, true, false, true, false]
  changed := createBuffer 9
  pixels := List.replicate 36 0

/-- A concrete running state on a 3x3 grid whose only live cell is the
center, with `next` equal to `current`; used as a witness input. -/
def centerCellState : GameState where
  isRunning := true
  isMousePressed := false
  bitsChanged := 0
  previous := createBuffer 9
  current := [false, false, false, false, true, false, false, false, false]
  next := [false, false, false, false, true, false, false, false, false]
  changed := createBuffer 9
  pixels := List.replicate 36 0

/-- A concrete running state on a 3x3 grid whose only live cell sits in
the top-left corner, with `next = current`; used as a counterexample input. -/
def cornerCellState : GameState where
  isRunning := true
  isMousePressed := false
  bitsChanged := 0
  previous := createBuffer 9
  current := [true, false, false, false, false, false, false, false, false]
  next := [true, false, false, false, false, false, false, false, false]
  changed := createBuffer 9
  pixels := List.replicate 36 0

/-- A running 4x4 state holding the centered 2x2 block in both `current`
and `next`; used as a witness input for the still-life claim. -/
def blockState : GameState where
  isRunning := true
  isMousePressed := false
  bitsChanged := 0
  previous := createBuffer 16
  current := blockBuffer 4 1 1
  next := blockBuffer 4 1 1
  changed := createBuffer 16
  pixels := List.replicate 64 0

/-- A running 4x4 state holding the centered 2x2 block in `current` but a
stale all-dead `next`; used as a counterexample input. -/
def staleNextBlockState : GameState where
  isRunning := true
  isMousePressed := false
  bitsChanged := 0
  previous := createBuffer 16
  current := blockBuffer 4 1 1
  next := createBuffer 16
  changed := createBuffer 16
  pixels := List.replicate 64 0

/-- A running 1x1 state with a dead cell and a dead stale `next`. -/
def oneCellStateA : GameState where
  isRunning := true
  isMousePressed := false
  bitsChanged := 0
  previous := [false]
  current := [false]
  next := [false]
  changed := [false]
  pixels := List.replicate 4 0

/-- Same as `oneCellStateA` except the stale `next` holds a live cell. -/
def oneCellStateB : GameState :=
  { oneCellStateA with next := [true] }

/-- `stepVal` applied twice at the same index gives the same value as
applying it once: the per-cell write is determined by `current` alone in
the branches that write. -/
theorem stepVal_idem (side : ℕ) (current : CellPool) (i : ℕ) (old : Bool) :
    stepVal side current i (stepVal side current i old) = stepVal side current i old := by
  simp only [stepVal]
  split_ifs <;> rfl

/-- Pointwise description of one iteration of the transition loop: index
`i` is rewritten through `stepVal`, all other indices are untouched. -/
theorem tickBody_getElem? (side : ℕ) (current next : CellPool) (i j : ℕ) :
    (tickBody side current next i)[j]? =
      if j = i ∧ j < next.length then some (stepVal side current i (next.getD i false))
      else next[j]? := by
  by_cases hj : j = i
  · subst hj
    by_cases hlen : j < next.length
    · rcases halive : current[j]?.getD false with _ | _ <;>
        rcases hd : jsLt (findNeighbors side current (j : ℤ)) 2 ||
            jsGt (findNeighbors side current (j : ℤ)) 3 with _ | _ <;>
          rcases he : jsEq (findNeighbors side current (j : ℤ)) 3 with _ | _ <;>
            simp [tickBody, stepVal, halive, hd, he, hlen,
              List.getD_eq_getElem?_getD, List.getElem?_eq_getElem hlen]
    · have hle : next.length ≤ j := Nat.not_lt.mp hlen
      simp only [tickBody, hlen, and_false, if_false]
      split_ifs <;> simp [List.set_eq_of_length_le hle, List.set_eq_of_length_le]
  · have hij : i ≠ j := fun h => hj h.symm
    simp only [tickBody, hj, false_and, if_false]
    split_ifs <;> simp [List.getElem?_set_ne hij]

/-- `getD` version of `tickBody_getElem?`. -/
theorem tickBody_getD (side : ℕ) (current next : CellPool) (i j : ℕ) :
    (tickBody side current next i).getD j false =
      if j = i ∧ j < next.length then stepVal side current i (next.getD i false)
      else next.getD j false := by
  rw [List.getD_eq_getElem?_getD, tickBody_getElem?]
  split_ifs <;> simp [List.getD_eq_getElem?_getD]

/-- One transition-loop iteration preserves the length of `next`. -/
theorem tickBody_length (side : ℕ) (current next : CellPool) (i : ℕ) :
    (tickBody side current next i).length = next.length := by
  simp only [tickBody]
  split_ifs <;> simp

/-- Pointwise description of folding the transition loop body over any
list of indices. -/
theorem foldl_tickBody_getElem? (side : ℕ) (current : CellPool) (L : List ℕ)
    (next : CellPool) (j : ℕ) :
    (L.foldl (tickBody side current) next)[j]? =
      if j ∈ L ∧ j < next.length then some (stepVal side current j (next.getD j false))
      else next[j]? := by
  induction L generalizing next with
  | nil => simp
  | cons i L ih =>
    rw [List.foldl_cons, ih, tickBody_getElem?, tickBody_getD, tickBody_length]
    by_cases hlen : j < next.length
    · by_cases hj : j = i
      · subst hj
        by_cases hjL : j ∈ L
        · simp [hjL, hlen, stepVal_idem, List.mem_cons]
        · simp [hjL, hlen, List.mem_cons]
      · by_cases hjL : j ∈ L
        · simp [hj, hjL, hlen, List.mem_cons]
        · simp [hj, hjL, hlen, List.mem_cons]
    · simp [hlen, List.mem_cons]

/-- The transition engine, described per cell: indices below
`current.length` are rewritten through `stepVal`, the rest are untouched. -/
theorem advance_getElem? (side : ℕ) (current next : CellPool) (j : ℕ) :
    (advance side current next)[j]? =
      if j < current.length ∧ j < next.length
      then some (stepVal side current j (next.getD j false))
      else next[j]? := by
  simp only [advance, foldl_tickBody_getElem?, List.mem_range]

/-- The transition engine preserves the length of `next`. -/
theorem advance_length (side : ℕ) (current next : CellPool) :
    (advance side current next).length = next.length := by
  rw [advance]
  generalize List.range current.length = L
  induction L generalizing next with
  | nil => rfl
  | cons i L ih => rw [List.foldl_cons, ih, tickBody_length]

/-- Length of the diff mask: `a.map(...)` has the length of `a`. -/
theorem diffBuffers_length (a b : CellPool) : (diffBuffers a b).length = a.length := by
  simp [diffBuffers, List.enum]

/-- Pointwise value of the diff mask below `a.length`. -/
theorem diffBuffers_getElem? (a b : CellPool) (i : ℕ) (h : i < a.length) :
    (diffBuffers a b)[i]? = some (decide (some (a.getD i false) ≠ b[i]?)) := by
  simp [diffBuffers, List.enum, List.getElem?_enumFrom, List.getElem?_eq_getElem h,
    List.getD_eq_getElem?_getD]

/-- C2: for every index `i` of the grid, `advance(current, next)` sets
`next[i]` to `false` when the cell is alive with fewer than 2 or more than
3 live neighbors, sets it to `true` when the cell is dead with exactly 3
live neighbors, and in every other case leaves `next[i]` exactly as it
was (no assignment happens); the neighbor comparisons are the JavaScript
ones, which are all false on a `NaN` count. -/
theorem claim2_transition_cases (side : ℕ) (current next : CellPool) (i : ℕ)
    (hc : current.length = side * side) (hn : next.length = side * side)
    (hi : i < side * side) :
    ((current.getD i false = true ∧
        (jsLt (findNeighbors side current (i : ℤ)) 2 = true ∨
          jsGt (findNeighbors side current (i : ℤ)) 3 = true)) →
        (advance side current next)[i]? = some false) ∧
    ((current.getD i false = false ∧ jsEq (findNeighbors side current (i : ℤ)) 3 = true) →
        (advance side current next)[i]? = some true) ∧
    ((¬(current.getD i false = true ∧
        (jsLt (findNeighbors side current (i : ℤ)) 2 = true ∨
          jsGt (findNeighbors side current (i : ℤ)) 3 = true)) ∧
      ¬(current.getD i false = false ∧ jsEq (findNeighbors side current (i : ℤ)) 3 = true)) →
        (advance side current next)[i]? = next[i]?) := by
  have hadv := advance_getElem? side current next i
  rw [if_pos ⟨hc ▸ hi, hn ▸ hi⟩] at hadv
  have hnx : next[i]? = some (next.getD i false) := by
    rw [List.getD_eq_getElem?_getD, List.getElem?_eq_getElem (hn ▸ hi)]
    rfl
  refine ⟨?_, ?_, ?_⟩
  · rintro ⟨halive, hdisj⟩
    rw [hadv]
    simp only [List.getD_eq_getElem?_getD] at halive
    rcases hdisj with hlt | hgt
    · simp [stepVal, halive, hlt]
    · simp [stepVal, halive, hgt]
  · rintro ⟨halive, heq⟩
    rw [hadv]
    simp only [List.getD_eq_getElem?_getD] at halive
    simp [stepVal, halive, heq]
  · rintro ⟨h1, h2⟩
    rw [hadv, hnx]
    rcases halive : current.getD i false with _ | _
    · have heq : jsEq (findNeighbors side current (i : ℤ)) 3 = false := by
        rcases he : jsEq (findNeighbors side current (i : ℤ)) 3 with _ | _
        · rfl
        · exact absurd ⟨halive, he⟩ h2
      simp only [List.getD_eq_getElem?_getD] at halive
      simp [stepVal, halive, heq]
    · have hlt : jsLt (findNeighbors side current (i : ℤ)) 2 = false := by
        rcases he : jsLt (findNeighbors side current (i : ℤ)) 2 with _ | _
        · rfl
        · exact absurd ⟨halive, Or.inl he⟩ h1
      have hgt : jsGt (findNeighbors side current (i : ℤ)) 3 = false := by
        rcases he : jsGt (findNeighbors side current (i : ℤ)) 3 with _ | _
        · rfl
        · exact absurd ⟨halive, Or.inr he⟩ h1
      simp only [List.getD_eq_getElem?_getD] at halive
      simp [stepVal, halive, hlt, hgt]

/-- C2 witness: on a 3x3 all-live grid the center cell is overcrowded and
`advance` writes `false`; on the same grid a dead center with 3 live
neighbors is born; and a cell whose rules do not fire keeps the stale
`next` value. -/
theorem claim2_witness :
    (advance 3 (List.replicate 9 true) (List.replicate 9 true))[4]? = some false ∧
      (advance 3 [true, true, true, false, false, false, false, false, false]
        (List.replicate 9 false))[4]? = some true ∧
      (advance 3 (List.replicate 9 false) (List.replicate 9 true))[4]? =
        (List.replicate 9 true : CellPool)[4]? :=
  ⟨(claim2_transition_cases 3 (List.replicate 9 true) (List.replicate 9 true) 4
      (by decide) (by decide) (by decide)).1 ⟨by decide, Or.inr (by decide)⟩,
    (claim2_transition_cases 3 [true, true, true, false, false, false, false, false, false]
      (List.replicate 9 false) 4 (by decide) (by decide) (by decide)).2.1
      ⟨by decide, by decide⟩,
    (claim2_transition_cases 3 (List.replicate 9 false) (List.replicate 9 true) 4
      (by decide) (by decide) (by decide)).2.2 ⟨by decide, by decide⟩⟩

/-- C5 counterexample: two states with element-wise equal `current`
buffers (a single dead cell) but different stale `next` buffers commit
different states after one running tick, so the committed state is not a
function of `current` alone. -/
theorem claim5_cex :
    oneCellStateA.current = oneCellStateB.current ∧
      (tick 1 oneCellStateA).current ≠ (tick 1 oneCellStateB).current := by
  exact ⟨rfl, by decide⟩

/-- C5 (amended): the tick is deterministic given `current` AND the prior
`next` buffer: two running states agreeing element-wise on both buffers
commit element-wise equal states. -/
theorem claim5_deterministic (side : ℕ) (s1 s2 : GameState)
    (h1 : s1.isRunning = true) (h2 : s2.isRunning = true)
    (hc : s1.current = s2.current) (hn : s1.next = s2.next) :
    (tick side s1).current = (tick side s2).current ∧
      (tick side s1).next = (tick side s2).next := by
  simp [tick, cloneBuffer, h1, h2, hc, hn]

/-- C5 witness: two running states equal on `current`/`next` but with
different `previous` snapshots commit identically. -/
theorem claim5_witness :
    (tick 1 oneCellStateA).current =
        (tick 1 { oneCellStateA with previous := [true] }).current ∧
      (tick 1 oneCellStateA).next =
        (tick 1 { oneCellStateA with previous := [true] }).next :=
  claim5_deterministic 1 oneCellStateA { oneCellStateA with previous := [true] }
    rfl rfl rfl rfl

/-- An idle tick only takes the `previous` snapshot. -/
theorem tick_idle (side : ℕ) (s : GameState) (h : s.isRunning = false) :
    tick side s = { s with previous := cloneBuffer s.current } := by
  simp [tick, h]

/-- Any number of idle ticks leaves the run flag, `current` and `next`
untouched. -/
theorem tick_idle_iterate (side : ℕ) (s : GameState) (h : s.isRunning = false) (k : ℕ) :
    ((tick side)^[k] s).isRunning = false ∧
      ((tick side)^[k] s).current = s.current ∧
      ((tick side)^[k] s).next = s.next := by
  induction k with
  | zero => exact ⟨h, rfl, rfl⟩
  | succ k ih =>
    rw [Function.iterate_succ_apply', tick_idle side _ ih.1]
    exact ⟨ih.1, ih.2.1, ih.2.2⟩

/-- C6: when the run flag is false, a tick performs only the snapshot
`previous := copy(current)` and stops; `current` and `next` are
element-wise unchanged over any number of consecutive idle ticks. -/
theorem claim6_idle_frame (side : ℕ) (s : GameState) (h : s.isRunning = false) :
    tick side s = { s with previous := cloneBuffer s.current } ∧
      ∀ k : ℕ, ((tick side)^[k] s).current = s.current ∧
        ((tick side)^[k] s).next = s.next :=
  ⟨tick_idle side s h,
    fun k => ⟨(tick_idle_iterate side s h k).2.1, (tick_idle_iterate side s h k).2.2⟩⟩

/-- C6 witness: a concrete idle 3x3 state, five consecutive idle ticks. -/
theorem claim6_witness :
    tick 3 idleState = { idleState with previous := cloneBuffer idleState.current } ∧
      ((tick 3)^[5] idleState).current = idleState.current ∧
      ((tick 3)^[5] idleState).next = idleState.next :=
  ⟨(claim6_idle_frame 3 idleState rfl).1, (claim6_idle_frame 3 idleState rfl).2 5⟩

/-- C7: for buffers of equal length, `diff(a, b)` has the shape of `a`
and holds `a[i] != b[i]` at every index; it is a total function. -/
theorem claim7_diff (a b : CellPool) (hab : a.length = b.length) :
    (diffBuffers a b).length = a.length ∧
      ∀ i, i < a.length →
        (diffBuffers a b).getD i false = (a.getD i false != b.getD i false) := by
  refine ⟨diffBuffers_length a b, fun i hi => ?_⟩
  have hbi : i < b.length := hab ▸ hi
  rw [List.getD_eq_getElem?_getD, diffBuffers_getElem? a b i hi,
    List.getElem?_eq_getElem hbi]
  rcases hA : a.getD i false with _ | _ <;>
    rcases hB : b[i] with _ | _ <;>
      simp_all [List.getD_eq_getElem?_getD, List.getElem?_eq_getElem hbi]

/-- C7 witness: a concrete diff on two 2-cell buffers. -/
theorem claim7_witness :
    (diffBuffers [true, false] [true, true]).length = 2 ∧
      (diffBuffers [true, false] [true, true]).getD 1 false = (false != true) :=
  ⟨(claim7_diff [true, false] [true, true] rfl).1,
    (claim7_diff [true, false] [true, true] rfl).2 1 (by decide)⟩

/-- The randomize loop never touches `previous`, `next` or `changed`. -/
theorem randomize_foldl_frame (rnd : ℕ → Bool) (L : List ℕ) (s : GameState) :
    ((L.foldl (fun st i => { st with current := st.current.set i (rnd i) }) s).previous
        = s.previous) ∧
      ((L.foldl (fun st i => { st with current := st.current.set i (rnd i) }) s).next
        = s.next) ∧
      ((L.foldl (fun st i => { st with current := st.current.set i (rnd i) }) s).changed
        = s.changed) := by
  induction L generalizing s with
  | nil => exact ⟨rfl, rfl, rfl⟩
  | cons i L ih => exact ih _

/-- C8: the randomize handler writes only `current`: `next`, `previous`
and `changed` are element-wise identical to their values before the call,
for every prior state and every sequence of coin flips. -/
theorem claim8_randomize_frame (rnd : ℕ → Bool) (s : GameState) :
    (randomize rnd s).next = s.next ∧ (randomize rnd s).previous = s.previous ∧
      (randomize rnd s).changed = s.changed := by
  have h := randomize_foldl_frame rnd (List.range s.current.length) s
  exact ⟨h.2.1, h.1, h.2.2⟩

/-- C10: immediately after a running tick, `current` is a copy of `next`:
the commit `current := copy(next)` re-establishes the equality of the two
buffers on every running tick. -/
theorem claim10_commit_invariant (side : ℕ) (s : GameState) (h : s.isRunning = true) :
    (tick side s).current = (tick side s).next := by
  simp [tick, cloneBuffer, h]

/-- C10 witness: the running 4x4 block state. -/
theorem claim10_witness : (tick 4 blockState).current = (tick 4 blockState).next :=
  claim10_commit_invariant 4 blockState rfl

/-- Adding `NaN` on the right gives `NaN`. -/
theorem jsAdd_none_right (a : Option ℕ) : jsAdd a none = none := by
  cases a <;> rfl

/-- Adding `NaN` on the left gives `NaN`. -/
theorem jsAdd_none_left (a : Option ℕ) : jsAdd none a = none := by
  cases a <;> rfl

/-- Numeric value (0 or 1) of the cell stored at offset `n`, for an
in-range offset. -/
def bitAt (cells : CellPool) (n : ℤ) : ℕ :=
  if cells.getD n.toNat false then 1 else 0

/-- An in-range array read converts to the stored bit. -/
theorem jsNum_jsGet_in_range (cells : CellPool) (n : ℤ) (h0 : 0 ≤ n)
    (h1 : n < (cells.length : ℤ)) :
    jsNum (jsGet cells n) = some (bitAt cells n) := by
  have hn : n.toNat < cells.length := by omega
  rw [jsGet, if_pos h0, List.getElem?_eq_getElem hn, bitAt, jsNum,
    List.getD_eq_getElem?_getD, List.getElem?_eq_getElem hn]
  rfl

/-- Closed form of the neighbor count when all eight offsets are inside
the buffer: the sum of the eight stored bits, in source order. -/
theorem findNeighbors_in_range (side : ℕ) (cells : CellPool) (index : ℤ)
    (h1 : 0 ≤ index - side - 1) (h2 : index + side + 1 < (cells.length : ℤ)) :
    findNeighbors side cells index =
      some (bitAt cells (index - side) + bitAt cells (index + side) +
            bitAt cells (index - 1) + bitAt cells (index + 1) +
            bitAt cells (index - side - 1) + bitAt cells (index - side + 1) +
            bitAt cells (index + side - 1) + bitAt cells (index + side + 1)) := by
  have e1 := jsNum_jsGet_in_range cells (index - side) (by omega) (by omega)
  have e2 := jsNum_jsGet_in_range cells (index + side) (by omega) (by omega)
  have e3 := jsNum_jsGet_in_range cells (index - 1) (by omega) (by omega)
  have e4 := jsNum_jsGet_in_range cells (index + 1) (by omega) (by omega)
  have e5 := jsNum_jsGet_in_range cells (index - side - 1) (by omega) (by omega)
  have e6 := jsNum_jsGet_in_range cells (index - side + 1) (by omega) (by omega)
  have e7 := jsNum_jsGet_in_range cells (index + side - 1) (by omega) (by omega)
  have e8 := jsNum_jsGet_in_range cells (index + side + 1) (by omega) (by omega)
  simp only [findNeighbors, List.foldl_cons, List.foldl_nil, e1, e2, e3, e4, e5, e6, e7, e8,
    jsAdd, Nat.zero_add]

/-- The neighbor count is `NaN` as soon as the smallest offset
(`index - side - 1`) is negative or the largest (`index + side + 1`)
falls beyond the buffer. -/
theorem findNeighbors_oob (side : ℕ) (cells : CellPool) (index : ℤ)
    (h : index - side - 1 < 0 ∨ (cells.length : ℤ) ≤ index + side + 1) :
    findNeighbors side cells index = none := by
  rcases h with h | h
  · have htl : jsNum (jsGet cells (index - side - 1)) = none := by
      rw [jsGet, if_neg (by omega)]
      rfl
    simp only [findNeighbors, List.foldl_cons, List.foldl_nil, htl, jsAdd_none_right,
      jsAdd_none_left]
  · have hbr : jsNum (jsGet cells (index + side + 1)) = none := by
      rw [jsGet]
      split_ifs with h0
      · rw [List.getElem?_eq_none (by omega)]
        rfl
      · rfl
    simp only [findNeighbors, List.foldl_cons, List.foldl_nil, hbr, jsAdd_none_right]

/-- Indicator of membership in the 2x2 block with top-left linear index
`p`, on integer linear indices. -/
def blockBitZ (p side n : ℤ) : ℕ :=
  if n = p ∨ n = p + 1 ∨ n = p + side ∨ n = p + side + 1 then 1 else 0

/-- The block buffer has `side * side` cells. -/
theorem blockBuffer_length (side x y : ℕ) : (blockBuffer side x y).length = side * side := by
  simp [blockBuffer]

/-- Reading the block buffer below its length gives the block
indicator. -/
theorem blockBuffer_getD (side x y j : ℕ) (hj : j < side * side) :
    (blockBuffer side x y).getD j false = isBlock side x y j := by
  rw [blockBuffer, List.getD_eq_getElem?_getD, List.getElem?_map, List.getElem?_range hj]
  rfl

/-- Bridge between an in-range bit of the block buffer and the integer
block indicator. -/
theorem bitAt_blockBuffer (side x y : ℕ) (n : ℤ) (h0 : 0 ≤ n)
    (hn : n.toNat < side * side) :
    bitAt (blockBuffer side x y) n = blockBitZ ((y * side + x : ℕ) : ℤ) (side : ℤ) n := by
  rw [bitAt, blockBuffer_getD side x y n.toNat hn, isBlock, blockBitZ]
  generalize y * side + x = p
  simp only [decide_eq_true_eq]
  split_ifs with h1 h2
  · rfl
  · exact absurd (by omega) h2
  · exact absurd (by omega : n.toNat = p ∨ n.toNat = p + 1 ∨ n.toNat = p + side ∨
      n.toNat = p + side + 1) h1
  · rfl

set_option maxHeartbeats 1600000 in
/-- Each cell of the 2x2 block sees exactly 3 block cells among its 8
arithmetic neighbor offsets, for any block position and any `side >= 4`. -/
theorem blockSum_block (p side j : ℤ) (hs : 4 ≤ side)
    (hj : j = p ∨ j = p + 1 ∨ j = p + side ∨ j = p + side + 1) :
    blockBitZ p side (j - side) + blockBitZ p side (j + side) + blockBitZ p side (j - 1) +
      blockBitZ p side (j + 1) + blockBitZ p side (j - side - 1) +
      blockBitZ p side (j - side + 1) + blockBitZ p side (j + side - 1) +
      blockBitZ p side (j + side + 1) = 3 := by
  rw [blockBitZ, blockBitZ, blockBitZ, blockBitZ, blockBitZ, blockBitZ, blockBitZ, blockBitZ]
  split_ifs <;> omega

set_option maxHeartbeats 1600000 in
/-- A cell outside the 2x2 block never sees exactly 3 block cells among
its 8 arithmetic neighbor offsets, for any `side >= 4`. -/
theorem blockSum_nonblock (p side j : ℤ) (hs : 4 ≤ side)
    (hj : ¬(j = p ∨ j = p + 1 ∨ j = p + side ∨ j = p + side + 1)) :
    blockBitZ p side (j - side) + blockBitZ p side (j + side) + blockBitZ p side (j - 1) +
      blockBitZ p side (j + 1) + blockBitZ p side (j - side - 1) +
      blockBitZ p side (j - side + 1) + blockBitZ p side (j + side - 1) +
      blockBitZ p side (j + side + 1) ≠ 3 := by
  rw [blockBitZ, blockBitZ, blockBitZ, blockBitZ, blockBitZ, blockBitZ, blockBitZ, blockBitZ]
  split_ifs <;> omega

/-- Per-cell stability of the block: one transition step maps every cell
of the block buffer to itself (live block cells have count 3, dead cells
never have count 3, and cells with an out-of-range offset get a `NaN`
count and are retained). -/
theorem stepVal_blockBuffer (side x y j : ℕ) (hs : 4 ≤ side)
    (hj : j < side * side) :
    stepVal side (blockBuffer side x y) j ((blockBuffer side x y).getD j false) =
      (blockBuffer side x y).getD j false := by
  by_cases hin : side + 1 ≤ j ∧ j + side + 1 < side * side
  · have hlen : ((blockBuffer side x y).length : ℤ) = ((side * side : ℕ) : ℤ) := by
      rw [blockBuffer_length]
    have hfn := findNeighbors_in_range side (blockBuffer side x y) (j : ℤ)
      (by omega) (by rw [hlen]; omega)
    have b1 := bitAt_blockBuffer side x y ((j : ℤ) - side) (by omega) (by omega)
    have b2 := bitAt_blockBuffer side x y ((j : ℤ) + side) (by omega) (by omega)
    have b3 := bitAt_blockBuffer side x y ((j : ℤ) - 1) (by omega) (by omega)
    have b4 := bitAt_blockBuffer side x y ((j : ℤ) + 1) (by omega) (by omega)
    have b5 := bitAt_blockBuffer side x y ((j : ℤ) - side - 1) (by omega) (by omega)
    have b6 := bitAt_blockBuffer side x y ((j : ℤ) - side + 1) (by omega) (by omega)
    have b7 := bitAt_blockBuffer side x y ((j : ℤ) + side - 1) (by omega) (by omega)
    have b8 := bitAt_blockBuffer side x y ((j : ℤ) + side + 1) (by omega) (by omega)
    rw [b1, b2, b3, b4, b5, b6, b7, b8] at hfn
    rcases hB : isBlock side x y j with _ | _
    · rw [isBlock] at hB
      have hBn := decide_eq_false_iff_not.mp hB
      have hne := blockSum_nonblock ((y * side + x : ℕ) : ℤ) (side : ℤ) (j : ℤ)
        (by omega) (by omega)
      simp only [stepVal]
      rw [hfn, blockBuffer_getD side x y j hj, isBlock, hB]
      simp only [jsEq, jsLt, jsGt]
      rw [decide_eq_false hne]
      simp
    · rw [isBlock] at hB
      have hBy := of_decide_eq_true hB
      have h3 := blockSum_block ((y * side + x : ℕ) : ℤ) (side : ℤ) (j : ℤ)
        (by omega) (by omega)
      rw [h3] at hfn
      simp only [stepVal]
      rw [hfn, blockBuffer_getD side x y j hj, isBlock, hB]
      simp [jsEq, jsLt, jsGt]
  · have hfn := findNeighbors_oob side (blockBuffer side x y) (j : ℤ)
      (by rw [blockBuffer_length]; omega)
    simp only [stepVal]
    rw [hfn]
    simp [jsEq, jsLt, jsGt]

/-- The transition engine maps the block buffer to itself when `next`
already equals it. -/
theorem advance_blockBuffer (side x y : ℕ) (hs : 4 ≤ side) :
    advance side (blockBuffer side x y) (blockBuffer side x y) = blockBuffer side x y := by
  apply List.ext_getElem?
  intro j
  rw [advance_getElem?]
  by_cases hjl : j < (blockBuffer side x y).length
  · rw [if_pos ⟨hjl, hjl⟩]
    have hj : j < side * side := by rw [blockBuffer_length] at hjl; exact hjl
    rw [stepVal_blockBuffer side x y j hs hj, List.getD_eq_getElem?_getD,
      List.getElem?_eq_getElem hjl]
    rfl
  · rw [if_neg (fun h => hjl h.1)]

/-- C3 (amended): for `side >= 4` and a 2x2 block of live cells centered
away from the edges, a running tick leaves the grid state unchanged,
provided the `next` buffer also holds the block pattern (as the commit of
any previous running tick guarantees). -/
theorem claim3_block_still_life (side x y : ℕ) (s : GameState)
    (hs : 4 ≤ side) (_hx1 : 1 ≤ x) (_hx2 : x + 3 ≤ side) (_hy1 : 1 ≤ y)
    (_hy2 : y + 3 ≤ side)
    (hr : s.isRunning = true)
    (hcur : s.current = blockBuffer side x y) (hnx : s.next = blockBuffer side x y) :
    (tick side s).current = blockBuffer side x y ∧
      (tick side s).next = blockBuffer side x y := by
  constructor <;> simp [tick, hr, cloneBuffer, hcur, hnx, advance_blockBuffer side x y hs]

/-- C1 counterexample: on the program's own grid (side 100, buffer 10000)
the neighbor count at index 0 — a first-row index whose arithmetic
offsets fall outside the buffer — is `NaN` (modelled `none`), not an
integer in `[0, 8]`: `Number(undefined)` poisons the sum. -/
theorem claim1_cex :
    findNeighbors CELLS_PER_ROW (createBuffer BUFFER_SIZE) 0 = none := by
  decide

/-- C1 (amended): for every buffer and every index whose eight arithmetic
neighbor offsets all lie inside the buffer, `count_live_neighbors`
returns an integer in `[0, 8]` with no error path; indices whose offsets
leave the buffer instead produce `NaN`. -/
theorem claim1_inbounds_count (side : ℕ) (cells : CellPool) (index : ℤ)
    (h1 : 0 ≤ index - side - 1) (h2 : index + side + 1 < (cells.length : ℤ)) :
    ∃ n : ℕ, findNeighbors side cells index = some n ∧ n ≤ 8 := by
  refine ⟨_, findNeighbors_in_range side cells index h1 h2, ?_⟩
  have hb : ∀ m : ℤ, bitAt cells m ≤ 1 := fun m => by
    rw [bitAt]
    split_ifs <;> omega
  have g1 := hb (index - side)
  have g2 := hb (index + side)
  have g3 := hb (index - 1)
  have g4 := hb (index + 1)
  have g5 := hb (index - side - 1)
  have g6 := hb (index - side + 1)
  have g7 := hb (index + side - 1)
  have g8 := hb (index + side + 1)
  omega

/-- C1 witness: the center of a dead 3x3 grid has all offsets in range
and count 0. -/
theorem claim1_witness :
    ∃ n : ℕ, findNeighbors 3 (createBuffer 9) 4 = some n ∧ n ≤ 8 :=
  claim1_inbounds_count 3 (createBuffer 9) 4 (by decide) (by decide)

/-- C3 counterexample: a running 4x4 state whose `current` holds exactly
the centered 2x2 block but whose stale `next` is all dead; after one
application of the transition the grid state has changed (the block
vanishes, because the survive branch of the rule never writes). -/
theorem claim3_cex :
    staleNextBlockState.current = blockBuffer 4 1 1 ∧
      (tick 4 staleNextBlockState).current ≠ blockBuffer 4 1 1 :=
  ⟨rfl, by decide⟩

/-- C3 witness: the centered block on a 4x4 grid with `next` holding the
same pattern is left unchanged by a running tick. -/
theorem claim3_witness :
    (tick 4 blockState).current = blockBuffer 4 1 1 ∧
      (tick 4 blockState).next = blockBuffer 4 1 1 :=
  claim3_block_still_life 4 1 1 blockState (by decide) (by decide) (by decide)
    (by decide) (by decide) rfl rfl rfl

/-- C4 counterexample: a 3x3 grid whose only live cell is the top-left
corner (its neighbor positions hold no live cells), with `next` equal to
`current`; after one running tick the cell is still alive, because its
neighbor count is `NaN` (offsets leave the buffer), no rule fires, and
the stale `next` keeps it alive. -/
theorem claim4_cex :
    cornerCellState.current =
        [true, false, false, false, false, false, false, false, false] ∧
      (tick 3 cornerCellState).current.getD 0 false = true :=
  ⟨rfl, by decide⟩

/-- C4 (amended): an isolated live cell whose eight arithmetic neighbor
offsets all lie inside the buffer dies after one running tick, wherever
it is placed; cells of the first or last rows are excluded since their
`NaN` count fires no rule. -/
theorem claim4_isolated_dies (side : ℕ) (s : GameState) (j : ℕ)
    (hr : s.isRunning = true)
    (hj : j < s.current.length)
    (hlen : s.next.length = s.current.length)
    (h1 : side + 1 ≤ j) (h2 : (j : ℤ) + side + 1 < (s.current.length : ℤ))
    (halive : s.current.getD j false = true)
    (hn1 : s.current.getD (j - side) false = false)
    (hn2 : s.current.getD (j + side) false = false)
    (hn3 : s.current.getD (j - 1) false = false)
    (hn4 : s.current.getD (j + 1) false = false)
    (hn5 : s.current.getD (j - side - 1) false = false)
    (hn6 : s.current.getD (j - side + 1) false = false)
    (hn7 : s.current.getD (j + side - 1) false = false)
    (hn8 : s.current.getD (j + side + 1) false = false) :
    (tick side s).current.getD j false = false := by
  have hcur : (tick side s).current = advance side s.current s.next := by
    simp [tick, hr, cloneBuffer]
  have hadv := advance_getElem? side s.current s.next j
  rw [if_pos ⟨hj, by omega⟩] at hadv
  have hfn : findNeighbors side s.current (j : ℤ) = some 0 := by
    rw [findNeighbors_in_range side s.current (j : ℤ) (by omega) h2]
    have c1 : bitAt s.current ((j : ℤ) - side) = 0 := by
      rw [bitAt, (by omega : ((j : ℤ) - side).toNat = j - side), hn1]
      rfl
    have c2 : bitAt s.current ((j : ℤ) + side) = 0 := by
      rw [bitAt, (by omega : ((j : ℤ) + side).toNat = j + side), hn2]
      rfl
    have c3 : bitAt s.current ((j : ℤ) - 1) = 0 := by
      rw [bitAt, (by omega : ((j : ℤ) - 1).toNat = j - 1), hn3]
      rfl
    have c4 : bitAt s.current ((j : ℤ) + 1) = 0 := by
      rw [bitAt, (by omega : ((j : ℤ) + 1).toNat = j + 1), hn4]
      rfl
    have c5 : bitAt s.current ((j : ℤ) - side - 1) = 0 := by
      rw [bitAt, (by omega : ((j : ℤ) - side - 1).toNat = j - side - 1), hn5]
      rfl
    have c6 : bitAt s.current ((j : ℤ) - side + 1) = 0 := by
      rw [bitAt, (by omega : ((j : ℤ) - side + 1).toNat = j - side + 1), hn6]
      rfl
    have c7 : bitAt s.current ((j : ℤ) + side - 1) = 0 := by
      rw [bitAt, (by omega : ((j : ℤ) + side - 1).toNat = j + side - 1), hn7]
      rfl
    have c8 : bitAt s.current ((j : ℤ) + side + 1) = 0 := by
      rw [bitAt, (by omega : ((j : ℤ) + side + 1).toNat = j + side + 1), hn8]
      rfl
    rw [c1, c2, c3, c4, c5, c6, c7, c8]
  rw [hcur, List.getD_eq_getElem?_getD, hadv, Option.getD_some]
  simp only [stepVal]
  rw [hfn, halive]
  simp [jsLt]

/-- C4 witness: the isolated center cell of a 3x3 grid dies in one
running tick. -/
theorem claim4_witness : (tick 3 centerCellState).current.getD 4 false = false :=
  claim4_isolated_dies 3 centerCellState 4 rfl (by decide) (by decide) (by decide)
    (by decide) (by decide) (by decide) (by decide) (by decide) (by decide)
    (by decide) (by decide) (by decide) (by decide)

/-- The byte the render encoder stores at flat pixel-buffer offset `j`:
alpha 255 for the fourth byte of each group, the cell color otherwise. -/
def pixVal (current : CellPool) (j : ℕ) : ℕ :=
  if j % 4 = 3 then 255 else cellColor current (j / 4)

/-- The written color is 0 (black) for a live cell and 255 (white) for a
dead cell. -/
theorem cellColor_eq (current : CellPool) (i : ℕ) :
    cellColor current i = if current.getD i false then 0 else 255 := by
  rw [cellColor]
  rcases h : current.getD i false with _ | _ <;> rfl

/-- One pixel-loop iteration preserves the pixel buffer length. -/
theorem pixBody_length (side : ℕ) (current mask : CellPool) (pixels : List ℕ) (i : ℕ) :
    (pixBody side current mask pixels i).length = pixels.length := by
  simp only [pixBody]
  split_ifs <;> simp

/-- Pointwise description of one iteration of the pixel-writing loop:
only the four bytes of cell `i` are written, and only when the mask
marks `i` as changed. -/
theorem pixBody_getElem? (side : ℕ) (current mask : CellPool) (pixels : List ℕ) (i j : ℕ) :
    (pixBody side current mask pixels i)[j]? =
      if j / 4 = i ∧ mask.getD i false = true ∧ j < pixels.length
      then some (pixVal current j) else pixels[j]? := by
  rcases hm : mask.getD i false with _ | _
  · have hm' : mask[i]?.getD false = false := by
      rw [← List.getD_eq_getElem?_getD]
      exact hm
    simp [pixBody, hm, hm']
  · simp only [pixBody, hm]
    rw [if_neg (by simp)]
    have hidx : (i / side * side + i % side) * 4 = i * 4 := by
      rw [Nat.mul_comm (i / side) side, Nat.div_add_mod]
    rw [hidx]
    by_cases hj4 : j / 4 = i
    · by_cases hlen : j < pixels.length
      · have hr4 : j % 4 = 0 ∨ j % 4 = 1 ∨ j % 4 = 2 ∨ j % 4 = 3 := by omega
        rw [if_pos ⟨hj4, trivial, hlen⟩]
        rcases hr4 with h4 | h4 | h4 | h4
        · rw [List.getElem?_set_ne (by omega), List.getElem?_set_ne (by omega),
            List.getElem?_set_ne (by omega), (by omega : i * 4 = j),
            List.getElem?_set_self hlen, pixVal, if_neg (by omega), hj4]
        · rw [List.getElem?_set_ne (by omega), List.getElem?_set_ne (by omega),
            (by omega : i * 4 + 1 = j), List.getElem?_set_self (by simpa using hlen),
            pixVal, if_neg (by omega), hj4]
        · rw [List.getElem?_set_ne (by omega), (by omega : i * 4 + 2 = j),
            List.getElem?_set_self (by simpa using hlen),
            pixVal, if_neg (by omega), hj4]
        · rw [(by omega : i * 4 + 3 = j), List.getElem?_set_self (by simpa using hlen),
            pixVal, if_pos h4]
      · rw [if_neg (fun h => hlen h.2.2),
          List.getElem?_eq_none (by simp only [List.length_set]; omega),
          List.getElem?_eq_none (by omega)]
    · rw [if_neg (fun h => hj4 h.1), List.getElem?_set_ne (by omega),
        List.getElem?_set_ne (by omega), List.getElem?_set_ne (by omega),
        List.getElem?_set_ne (by omega)]

/-- Pointwise description of folding the pixel-writing loop body over any
list of cell indices. -/
theorem foldl_pixBody_getElem? (side : ℕ) (current mask : CellPool) (L : List ℕ)
    (pixels : List ℕ) (j : ℕ) :
    (L.foldl (pixBody side current mask) pixels)[j]? =
      if j / 4 ∈ L ∧ mask.getD (j / 4) false = true ∧ j < pixels.length
      then some (pixVal current j) else pixels[j]? := by
  induction L generalizing pixels with
  | nil => simp
  | cons i L ih =>
    rw [List.foldl_cons, ih, pixBody_length, pixBody_getElem?]
    by_cases h4 : j / 4 = i
    · subst h4
      rcases hm : mask.getD (j / 4) false with _ | _
      · simp [hm, List.mem_cons]
      · by_cases hl : j < pixels.length
        · by_cases hjL : j / 4 ∈ L <;> simp [hjL, hm, hl, List.mem_cons]
        · simp [hm, hl, List.mem_cons]
    · by_cases hjL : j / 4 ∈ L <;> simp [h4, hjL, List.mem_cons]

/-- The render encoder, described per byte. -/
theorem encode_getElem? (side : ℕ) (current mask : CellPool) (pixels : List ℕ) (j : ℕ) :
    (encode side current mask pixels)[j]? =
      if j / 4 < current.length ∧ mask.getD (j / 4) false = true ∧ j < pixels.length
      then some (pixVal current j) else pixels[j]? := by
  simp only [encode, foldl_pixBody_getElem?, List.mem_range]

/-- C9: for every current buffer, mask and pixel buffer (of the
program's shape), `encode` writes at each masked index `i` the 4-byte
RGBA group at byte offset `4*i`: the color is 255 (white) for a dead
cell and 0 (black) for a live cell, with alpha 255; the bytes of an
unmasked index are left unchanged. -/
theorem claim9_encode (side : ℕ) (current mask : CellPool) (pixels : List ℕ) (i : ℕ)
    (hi : i < current.length) (hpx : 4 * current.length ≤ pixels.length) :
    (mask.getD i false = true →
        (encode side current mask pixels)[4 * i]? =
            some (if current.getD i false then 0 else 255) ∧
          (encode side current mask pixels)[4 * i + 1]? =
            some (if current.getD i false then 0 else 255) ∧
          (encode side current mask pixels)[4 * i + 2]? =
            some (if current.getD i false then 0 else 255) ∧
          (encode side current mask pixels)[4 * i + 3]? = some 255) ∧
      (mask.getD i false = false →
        ∀ k, k < 4 → (encode side current mask pixels)[4 * i + k]? = pixels[4 * i + k]?) := by
  constructor
  · intro hm
    have e0 : (4 * i) / 4 = i := by omega
    have e1 : (4 * i + 1) / 4 = i := by omega
    have e2 : (4 * i + 2) / 4 = i := by omega
    have e3 : (4 * i + 3) / 4 = i := by omega
    refine ⟨?_, ?_, ?_, ?_⟩
    · rw [encode_getElem?, e0, if_pos ⟨hi, hm, by omega⟩, pixVal,
        if_neg (by omega), e0, cellColor_eq]
    · rw [encode_getElem?, e1, if_pos ⟨hi, hm, by omega⟩, pixVal,
        if_neg (by omega), e1, cellColor_eq]
    · rw [encode_getElem?, e2, if_pos ⟨hi, hm, by omega⟩, pixVal,
        if_neg (by omega), e2, cellColor_eq]
    · rw [encode_getElem?, e3, if_pos ⟨hi, hm, by omega⟩, pixVal,
        if_pos (by omega)]
  · intro hm k hk
    have e : (4 * i + k) / 4 = i := by omega
    have hcond : ¬((4 * i + k) / 4 < current.length ∧
        mask.getD ((4 * i + k) / 4) false = true ∧ 4 * i + k < pixels.length) := by
      rw [e]
      rintro ⟨-, hc, -⟩
      rw [hm] at hc
      cases hc
    rw [encode_getElem?, if_neg hcond]

/-- C9 witness: a concrete 2x2 grid: a masked live cell gets bytes
`0,0,0,255`, an unmasked cell keeps the prior buffer bytes. -/
theorem claim9_witness :
    (encode 2 [true, false, true, true] [true, false, true, false]
        (List.replicate 16 7))[3]? = some 255 ∧
      (encode 2 [true, false, true, true] [true, false, true, false]
        (List.replicate 16 7))[0]? = some 0 ∧
      (encode 2 [true, false, true, true] [true, false, true, false]
        (List.replicate 16 7))[5]? = (List.replicate 16 7 : List ℕ)[5]? :=
  ⟨((claim9_encode 2 [true, false, true, true] [true, false, true, false]
      (List.replicate 16 7) 0 (by decide) (by decide)).1 (by decide)).2.2.2,
    ((claim9_encode 2 [true, false, true, true] [true, false, true, false]
      (List.replicate 16 7) 0 (by decide) (by decide)).1 (by decide)).1,
    ((claim9_encode 2 [true, false, true, true] [true, false, true, false]
      (List.replicate 16 7) 1 (by decide) (by decide)).2 (by decide)) 1 (by decide)⟩

end Conway
